import Mathlib

/-!
Verification of the kusari HTTP/1.1 client (`src/client.rs`, `src/lib.rs`)
against its natural-language specification.

The Rust code is shallowly embedded: byte strings are `List Nat` (each
element one byte, 0..255), streams are lists of chunks as delivered by the
transport, and the fallible parser returns `Except`.  Loops that in Rust
run until the stream is exhausted are given explicit fuel that provably
exceeds the number of iterations the Rust loop can perform on the same
finite stream.
-/

namespace Kusari

/-- Bytes of an ASCII/UTF-8 Lean string literal, used to write concrete
byte sequences readably. -/
def strB (s : String) : List Nat := s.toList.map Char.toNat

/-- Prefix test: `startsWith pat l` is true iff `pat` is a prefix of `l`. -/
def startsWith : List Nat → List Nat → Bool
  | [], _ => true
  | _ :: _, [] => false
  | a :: p, b :: l => a == b && startsWith p l

/-- Substring test: `containsSeq pat l` is true iff `pat` occurs contiguously inside `l`. -/
def containsSeq (pat : List Nat) : List Nat → Bool
  | [] => startsWith pat []
  | l@(_ :: rest) => startsWith pat l || containsSeq pat rest

/-- Decimal digit bytes of `n`, helper with fuel (`fuel ≥ n` suffices since
`n / 10 < n` for `n ≥ 1`). -/
def decDigitsAux : Nat → Nat → List Nat
  | 0, _ => []
  | fuel + 1, n => if n = 0 then [] else decDigitsAux fuel (n / 10) ++ [48 + n % 10]

/-- Decimal digit bytes of `n`, as Rust `Display` for integers renders them
(`format!("{}", n)`). -/
def natDigits (n : Nat) : List Nat :=
  if n = 0 then [48] else decDigitsAux n n

/-- Lowercase hex digit byte for `n < 16`. -/
def hexDigitChar (n : Nat) : Nat := if n < 10 then 48 + n else 87 + n

/-- Hex digit bytes of `n` (shortest form, lowercase), helper with fuel. -/
def hexDigitsAux : Nat → Nat → List Nat
  | 0, _ => []
  | fuel + 1, n => if n = 0 then [] else hexDigitsAux fuel (n / 16) ++ [hexDigitChar (n % 16)]

/-- Hex digit bytes of `n` as Rust `format!("{:x}", n)` renders them:
no padding, lowercase, `0` for zero. -/
def hexDigits (n : Nat) : List Nat :=
  if n = 0 then [48] else hexDigitsAux n n

/-- Predicate `is_visible_ascii` from the `http` crate: printable ASCII or tab. -/
def isVisibleAscii (b : Nat) : Bool := (32 ≤ b && b < 127) || b == 9

/-- One byte of the `Debug` rendering of a non-sensitive `http::HeaderValue`:
`"` is escaped as `\"`, visible ASCII is kept, anything else becomes
`\x` followed by unpadded lowercase hex. -/
def escByte (b : Nat) : List Nat :=
  if b = 34 then [92, 34]
  else if isVisibleAscii b then [b]
  else 92 :: 120 :: hexDigits b

/-- Rendering `format!("{:?}", value)` of a non-sensitive `http::HeaderValue` holding
bytes `v`: the escaped bytes wrapped in double quotes.  This is what
`Client::send_request` (src/client.rs line 72) actually writes for each
header value. -/
def headerValueDebug (v : List Nat) : List Nat :=
  34 :: (v.map escByte).flatten ++ [34]

/-- A request as `send_request` consumes it: the `Display` bytes of its
method, the iteration sequence of its `HeaderMap` (name bytes as stored —
`HeaderName` stores names lowercased — paired with raw value bytes), and the
body bytes.  `uri`/`version` of the Rust struct are unused by the client. -/
structure Request where
  method : List Nat
  headers : List (List Nat × List Nat)
  body : List Nat
  deriving DecidableEq, Repr

/-- The part of `url::Url` that `send_request` reads: `path()` and
`host_str()` (the latter may be absent). -/
structure Url where
  path : List Nat
  host : Option (List Nat)
  deriving DecidableEq, Repr

/-- One caller header line exactly as the loop body
`request_str += &format!("{}: {:?}\r\n", key.as_str(), value)` renders it. -/
def headerLineCRLF (p : List Nat × List Nat) : List Nat :=
  p.1 ++ strB (": ") ++ headerValueDebug p.2 ++ strB ("\r\n")

/-- The head (everything before the body) built by `send_request`
(src/client.rs lines 68-79), translated statement by statement:
status line, `Host` line, one line per caller header, a `Content-Length`
line only when the body is non-empty, then the blank line. -/
def requestHead (req : Request) (url : Url) : List Nat :=
  let s := req.method ++ strB (" ") ++ url.path ++ strB (" HTTP/1.1\r\n")
  let s := s ++ strB ("Host: ") ++ url.host.getD [] ++ strB ("\r\n")
  let s := req.headers.foldl (fun acc p => acc ++ headerLineCRLF p) s
  let s := if req.body.isEmpty then s
           else s ++ strB ("Content-Length: ") ++ natDigits req.body.length ++ strB ("\r\n")
  s ++ strB ("\r\n")

/-- All bytes `send_request` writes to the stream for one request: the head,
then (second `write_all`, only when non-empty) the raw body. -/
def serializeRequest (req : Request) (url : Url) : List Nat :=
  requestHead req url ++ (if req.body.isEmpty then [] else req.body)

/-! ## Response parsing (`Client::read_response`, src/client.rs lines 94-164) -/

/-- Errors `read_response` can surface.  The string errors of the Rust code
are named; `bodyLenUnderflow` stands for the unchecked `usize` subtraction
`content_length - body.len()` at line 145, which in Rust panics in debug
builds (and wraps around in release builds) when `body.len()` exceeds the
declared length — there is no error value for it in the code itself. -/
inductive HttpError where
  | invalidResponse
  | missingStatusLine
  | missingHttpVersion
  | missingStatusCode
  | statusCodeParse
  | invalidStatusCode
  | invalidHeaderName
  | invalidHeaderValue
  | contentLengthParse
  | bodyLenUnderflow
  deriving DecidableEq, Repr

/-- The `Response` struct of src/lib.rs, fields in declaration order;
`status` mirrors `http::StatusCode` as its numeric value. -/
structure Response where
  status_code : Nat
  status : Nat
  reason_phrase : List Nat
  headers : List (List Nat × List Nat)
  body : List Nat
  deriving DecidableEq, Repr

/-- One `stream.read(&mut buf)` with a buffer of size `max` against a stream
that still holds `chunks`: at most `max` bytes of the first chunk are
returned, the rest of that chunk stays at the head of the stream; an
exhausted stream returns zero bytes (peer closed). -/
def readChunk (max : Nat) : List (List Nat) → (List Nat × List (List Nat))
  | [] => ([], [])
  | c :: rest =>
    let t := c.take max
    let d := c.drop max
    (t, if d = [] then rest else d :: rest)

/-- Index of the first occurrence of `\r\n\r\n`
(`buffer.windows(4).position(|w| w == b"\r\n\r\n")`): the first index whose
4-byte prefix is the terminator. -/
def findCRLFCRLF : List Nat → Option Nat
  | [] => none
  | l@(_ :: rest) =>
    if startsWith (strB ("\r\n\r\n")) l then some 0
    else (findCRLFCRLF rest).map (· + 1)

/-- The header-accumulation loop (src/client.rs lines 98-107): read a chunk
(buffer size 8192), stop on zero bytes (closed) or once the buffer contains
`\r\n\r\n`; otherwise keep reading.  Returns the buffer and the unread rest
of the stream.  Fuel only bounds the iteration count; one unit is spent per
read and every non-final read consumes at least one byte of the stream, so
any fuel exceeding the total stream length reproduces the Rust loop. -/
def accumHeaders : Nat → List Nat → List (List Nat) → (List Nat × List (List Nat))
  | 0, buf, stream => (buf, stream)
  | fuel + 1, buf, stream =>
    let r := readChunk 8192 stream
    if r.1 = [] then (buf, r.2)
    else
      let buf2 := buf ++ r.1
      if (findCRLFCRLF buf2).isSome then (buf2, r.2)
      else accumHeaders fuel buf2 r.2

/-- Total number of bytes a finite stream still holds. -/
def streamBytes (s : List (List Nat)) : Nat := (s.map List.length).sum

/-- Run the header-accumulation loop from an empty buffer with sufficient
fuel. -/
def headerPhase (stream : List (List Nat)) : List Nat × List (List Nat) :=
  accumHeaders (streamBytes stream + 1) [] stream

/-! ### UTF-8: `String::from_utf8_lossy` and re-encoding -/

/-- The replacement character U+FFFD. -/
def rep : Nat := 65533

/-- UTF-8 continuation byte. -/
def isCont (b : Nat) : Bool := 128 ≤ b && b ≤ 191

/-- Valid first continuation byte of a 3-byte sequence led by `b1`
(excludes overlong forms and surrogates, as Rust does). -/
def cont3a (b1 b2 : Nat) : Bool :=
  if b1 = 224 then 160 ≤ b2 && b2 ≤ 191
  else if b1 = 237 then 128 ≤ b2 && b2 ≤ 159
  else isCont b2

/-- Valid first continuation byte of a 4-byte sequence led by `b1`. -/
def cont4a (b1 b2 : Nat) : Bool :=
  if b1 = 240 then 144 ≤ b2 && b2 ≤ 191
  else if b1 = 244 then 128 ≤ b2 && b2 ≤ 143
  else isCont b2

/-- Model of `String::from_utf8_lossy` as a map from bytes to the decoded sequence of
Unicode code points: well-formed sequences are decoded, each maximal invalid
subpart becomes one U+FFFD.  Fuel bounds the recursion; every step consumes
at least one byte, so `length + 1` fuel is exact. -/
def utf8LossyAux : Nat → List Nat → List Nat
  | 0, _ => []
  | _ + 1, [] => []
  | fuel + 1, b1 :: t1 =>
    if b1 < 128 then b1 :: utf8LossyAux fuel t1
    else if b1 < 194 then rep :: utf8LossyAux fuel t1
    else if b1 < 224 then
      match t1 with
      | [] => [rep]
      | b2 :: t2 =>
        if isCont b2 then ((b1 - 192) * 64 + (b2 - 128)) :: utf8LossyAux fuel t2
        else rep :: utf8LossyAux fuel t1
    else if b1 < 240 then
      match t1 with
      | [] => [rep]
      | b2 :: t2 =>
        if cont3a b1 b2 then
          match t2 with
          | [] => [rep]
          | b3 :: t3 =>
            if isCont b3 then
              ((b1 - 224) * 4096 + (b2 - 128) * 64 + (b3 - 128)) :: utf8LossyAux fuel t3
            else rep :: utf8LossyAux fuel t2
        else rep :: utf8LossyAux fuel t1
    else if b1 < 245 then
      match t1 with
      | [] => [rep]
      | b2 :: t2 =>
        if cont4a b1 b2 then
          match t2 with
          | [] => [rep]
          | b3 :: t3 =>
            if isCont b3 then
              match t3 with
              | [] => [rep]
              | b4 :: t4 =>
                if isCont b4 then
                  ((b1 - 240) * 262144 + (b2 - 128) * 4096 + (b3 - 128) * 64 + (b4 - 128))
                    :: utf8LossyAux fuel t4
                else rep :: utf8LossyAux fuel t3
            else rep :: utf8LossyAux fuel t2
        else rep :: utf8LossyAux fuel t1
    else rep :: utf8LossyAux fuel t1

/-- Run `String::from_utf8_lossy` on a full byte buffer. -/
def utf8Lossy (s : List Nat) : List Nat := utf8LossyAux (s.length + 1) s

/-- UTF-8 encoding of one code point (what `str::as_bytes` yields per char). -/
def utf8EncodeChar (c : Nat) : List Nat :=
  if c < 128 then [c]
  else if c < 2048 then [192 + c / 64, 128 + c % 64]
  else if c < 65536 then [224 + c / 4096, 128 + (c / 64) % 64, 128 + c % 64]
  else [240 + c / 262144, 128 + (c / 4096) % 64, 128 + (c / 64) % 64, 128 + c % 64]

/-- UTF-8 encoding of a code-point sequence. -/
def utf8Encode (s : List Nat) : List Nat := (s.map utf8EncodeChar).flatten

/-! ### Rust string splitting as `read_response` uses it -/

/-- Split on byte 10, keeping every piece (helper for `str::lines`). -/
def splitLFAux : List Nat → List Nat → List (List Nat)
  | [], cur => [cur.reverse]
  | 10 :: rest, cur => cur.reverse :: splitLFAux rest []
  | b :: rest, cur => splitLFAux rest (b :: cur)

/-- Remove one trailing `\r`, as `str::lines` does per line. -/
def stripTrailingCR (l : List Nat) : List Nat :=
  if l.getLast? = some 13 then l.dropLast else l

/-- Model of `str::lines`: split on `\n`, drop the final piece when it is empty
(i.e. when the string is empty or ends with `\n`), strip one trailing `\r`
from each line. -/
def rustLines (s : List Nat) : List (List Nat) :=
  let ps := splitLFAux s []
  let ps := if ps.getLast? = some [] then ps.dropLast else ps
  ps.map stripTrailingCR

/-- Model of `str::split_once` with a single-byte pattern. -/
def splitOnce (sep : Nat) : List Nat → Option (List Nat × List Nat)
  | [] => none
  | b :: rest =>
    if b = sep then some ([], rest)
    else (splitOnce sep rest).map (fun p => (b :: p.1, p.2))

/-- Model of `str::splitn` with count 3 and a space separator: at most three
pieces, the third keeps any further
separators (how the status line is taken apart at line 118). -/
def splitn3 (sep : Nat) (s : List Nat) : List (List Nat) :=
  match splitOnce sep s with
  | none => [s]
  | some (a, rest) =>
    match splitOnce sep rest with
    | none => [a, rest]
    | some (b, rest2) => [a, b, rest2]

/-- Model of `str::split_once(": ")`: split at the first occurrence of `": "`. -/
def splitOnceColonSp : List Nat → Option (List Nat × List Nat)
  | 58 :: 32 :: rest => some ([], rest)
  | b :: rest => (splitOnceColonSp rest).map (fun p => (b :: p.1, p.2))
  | [] => none

/-- ASCII digit test. -/
def isDigit (b : Nat) : Bool := 48 ≤ b && b ≤ 57

/-- Value of a digit string. -/
def digitsToNat (s : List Nat) : Nat := s.foldl (fun a d => a * 10 + (d - 48)) 0

/-- Rust `str::parse` for unsigned integers: an optional leading `+`, then at
least one ASCII digit.  (The `usize` overflow bound is not modelled; no
claim exercises values near `2^64`.) -/
def parseUnsigned (s : List Nat) : Option Nat :=
  let s2 := match s with | 43 :: rest => rest | _ => s
  if s2 ≠ [] && s2.all isDigit then some (digitsToNat s2) else none

/-- Model of `str::parse::<u16>`: as `parseUnsigned`, plus the `u16` range check. -/
def parseU16 (s : List Nat) : Option Nat :=
  match parseUnsigned s with
  | some n => if n < 65536 then some n else none
  | none => none

/-- The `http::HeaderName` byte table: RFC 7230 token bytes, with uppercase
letters mapped to lowercase (a `HeaderName` stores the lowercased name);
anything else is invalid. -/
def headerNameByte (b : Nat) : Option Nat :=
  if 97 ≤ b ∧ b ≤ 122 then some b
  else if 65 ≤ b ∧ b ≤ 90 then some (b + 32)
  else if 48 ≤ b ∧ b ≤ 57 then some b
  else if b = 33 ∨ b = 35 ∨ b = 36 ∨ b = 37 ∨ b = 38 ∨ b = 39 ∨ b = 42 ∨ b = 43
       ∨ b = 45 ∨ b = 46 ∨ b = 94 ∨ b = 95 ∨ b = 96 ∨ b = 124 ∨ b = 126 then some b
  else none

/-- Model of `HeaderName::from_str` on a decoded piece: encode back to bytes, reject
the empty name, validate and lowercase every byte. -/
def headerNameFromStr (cps : List Nat) : Option (List Nat) :=
  let bytes := utf8Encode cps
  if bytes = [] then none else bytes.mapM headerNameByte

/-- The `http::HeaderValue` byte validity check (`from_str`): every byte at least 32
and not DEL, or tab. -/
def isValidValueByte (b : Nat) : Bool := (32 ≤ b && b ≠ 127) || b == 9

/-- Model of `HeaderValue::from_str` on a decoded piece: encode back to bytes and
validate them. -/
def headerValueFromStr (cps : List Nat) : Option (List Nat) :=
  let bytes := utf8Encode cps
  if bytes.all isValidValueByte then some bytes else none

/-- Model of `HeaderValue::to_str().unwrap_or_default()` (the `HeaderValueExt` helper
of src/client.rs): the bytes when all are visible ASCII, otherwise `""`. -/
def headerValueToString (bytes : List Nat) : List Nat :=
  if bytes.all isVisibleAscii then bytes else []

/-- Model of `http::HeaderMap::insert`: replace the value of an existing entry with
the same (already lowercased) name, dropping any extra values, or append a
new entry.  Maps built solely by `insert` have unique names. -/
def insertHeader (m : List (List Nat × List Nat)) (k v : List Nat) :
    List (List Nat × List Nat) :=
  if m.any (fun p => p.1 = k) then m.map (fun p => if p.1 = k then (k, v) else p)
  else m ++ [(k, v)]

/-- Model of `HeaderMap::get`: first (here: only) value stored under `k`. -/
def getHeader (m : List (List Nat × List Nat)) (k : List Nat) : Option (List Nat) :=
  (m.find? (fun p => p.1 = k)).map (·.2)

/-- The header loop of `read_response` (lines 125-134): stop at the first
empty line; a line without `": "` is skipped with no effect; otherwise parse
name and value (either failing propagates with `?`) and `insert` the pair. -/
def parseHeaderLines : List (List Nat) → List (List Nat × List Nat) →
    Except HttpError (List (List Nat × List Nat))
  | [], m => .ok m
  | l :: rest, m =>
    if l = [] then .ok m
    else
      match splitOnceColonSp l with
      | none => parseHeaderLines rest m
      | some (k, v) =>
        match headerNameFromStr k with
        | none => .error .invalidHeaderName
        | some name =>
          match headerValueFromStr v with
          | none => .error .invalidHeaderValue
          | some value => parseHeaderLines rest (insertHeader m name value)

/-- The body loop of `read_response` (lines 146-154): while bytes remain to
be read, read into a buffer of exactly `remaining` bytes, stop on zero bytes
(closed), append and decrement.  Fuel of `remaining + 1` covers every
iteration the Rust loop can make. -/
def readBody : Nat → Nat → List Nat → List (List Nat) → List Nat
  | 0, _, body, _ => body
  | fuel + 1, remaining, body, stream =>
    if remaining = 0 then body
    else
      let r := readChunk remaining stream
      if r.1 = [] then body
      else readBody fuel (remaining - r.1.length) (body ++ r.1) r.2

/-- Everything `read_response` does after the accumulation loop (lines
109-163), on the accumulated `buffer` and the unread rest of the stream:
locate the terminator, split head from body start, lossily decode the head,
parse status line (discarding the reason phrase into `_reason_phrase`!) and
headers, read the declared `Content-Length`, then collect the body.  The
returned `Response` always carries an empty `reason_phrase` (line 162). -/
def parseBuffer (buffer : List Nat) (rest : List (List Nat)) :
    Except HttpError Response :=
  match findCRLFCRLF buffer with
  | none => .error .invalidResponse
  | some pos =>
    let headerEnd := pos + 4
    let headerPart := buffer.take headerEnd
    let bodyStart := buffer.drop headerEnd
    let responseStr := utf8Lossy headerPart
    match rustLines responseStr with
    | [] => .error .missingStatusLine
    | statusLine :: headerLines =>
      match splitn3 32 statusLine with
      | [] => .error .missingHttpVersion
      | [_v] => .error .missingStatusCode
      | _v :: codeStr :: _reasonParts =>
        match parseU16 codeStr with
        | none => .error .statusCodeParse
        | some code =>
          if code < 100 ∨ 1000 ≤ code then .error .invalidStatusCode
          else
            match parseHeaderLines headerLines [] with
            | .error e => .error e
            | .ok headersMap =>
              match getHeader headersMap (strB ("content-length")) with
              | none => .ok ⟨code, code, [], headersMap, bodyStart⟩
              | some clBytes =>
                match parseUnsigned (headerValueToString clBytes) with
                | none => .error .contentLengthParse
                | some cl =>
                  if bodyStart.length > cl then .error .bodyLenUnderflow
                  else
                    let body := readBody (cl + 1) (cl - bodyStart.length) bodyStart rest
                    .ok ⟨code, code, [], headersMap, body⟩

/-- Model of `Client::read_response` on a finite incoming stream: accumulate the
header block, then parse it and the body. -/
def readResponse (stream : List (List Nat)) : Except HttpError Response :=
  parseBuffer (headerPhase stream).1 (headerPhase stream).2

/-! ## Claim-level descriptions of the serialized request

These definitions restate the wire layout line by line; they are proved
equal to `serializeRequest` (which mirrors the Rust statement sequence), so
claims about individual lines can be read off the structure. -/

/-- The status line, without its CRLF. -/
def statusLineOf (req : Request) (url : Url) : List Nat :=
  req.method ++ strB (" ") ++ url.path ++ strB (" HTTP/1.1")

/-- The synthesized `Host` line, without its CRLF. -/
def hostLineOf (url : Url) : List Nat :=
  strB ("Host: ") ++ url.host.getD []

/-- A caller header line, without its CRLF. -/
def headerLineOf (p : List Nat × List Nat) : List Nat :=
  p.1 ++ strB (": ") ++ headerValueDebug p.2

/-- The synthesized `Content-Length` line, without its CRLF. -/
def clLineOf (req : Request) : List Nat :=
  strB ("Content-Length: ") ++ natDigits req.body.length

/-- All lines of the request head, in emission order (the final blank line
is not listed). -/
def requestLines (req : Request) (url : Url) : List (List Nat) :=
  statusLineOf req url :: hostLineOf url ::
    (req.headers.map headerLineOf ++ if req.body.isEmpty then [] else [clLineOf req])

/-- Join lines with CRLF after every line. -/
def joinCRLF (ps : List (List Nat)) : List Nat :=
  (ps.map (fun p => p ++ strB ("\r\n"))).flatten

/-- RFC 7230 token byte, the alphabet of `http::Method` names. -/
def isTokenByte (b : Nat) : Bool :=
  (48 ≤ b && b ≤ 57) || (65 ≤ b && b ≤ 90) || (97 ≤ b && b ≤ 122) ||
  b == 33 || b == 35 || b == 36 || b == 37 || b == 38 || b == 39 || b == 42 || b == 43 ||
  b == 45 || b == 46 || b == 94 || b == 95 || b == 96 || b == 124 || b == 126

/-- A name as `http::HeaderMap` iteration yields it: every byte is a fixed
point of the `HeaderName` table (lowercase token bytes — `HeaderName`
stores names lowercased). -/
def storedHeaderName (n : List Nat) : Prop :=
  ∀ b ∈ n, headerNameByte b = some b

instance (n : List Nat) : Decidable (storedHeaderName n) := by
  unfold storedHeaderName; infer_instance

/-! ## Helper lemmas -/

theorem startsWith_cons_false (a b : Nat) (p l : List Nat) (h : a ≠ b) :
    startsWith (a :: p) (b :: l) = false := by
  have hab : (a == b) = false := beq_eq_false_iff_ne.mpr h
  simp [startsWith, hab]

theorem foldl_append_flatten {α : Type} (g : α → List Nat) :
    ∀ (l : List α) (s : List Nat),
      l.foldl (fun acc p => acc ++ g p) s = s ++ (l.map g).flatten
  | [], s => by simp
  | p :: l, s => by
      simp [List.foldl_cons, foldl_append_flatten g l, List.append_assoc]

/-- The serializer produces exactly the lines of `requestLines`, each
followed by CRLF, then the blank line, then the raw body. -/
theorem serialize_structure (req : Request) (url : Url) :
    serializeRequest req url
      = joinCRLF (requestLines req url ++ [[]])
        ++ (if req.body.isEmpty then [] else req.body) := by
  have hsplit : strB (" HTTP/1.1\r\n") = strB (" HTTP/1.1") ++ strB ("\r\n") := rfl
  have hline : ((fun p => p ++ strB ("\r\n")) ∘ headerLineOf)
      = fun p : List Nat × List Nat =>
          p.1 ++ (strB (": ") ++ (headerValueDebug p.2 ++ strB ("\r\n"))) := by
    funext p
    simp [headerLineOf, List.append_assoc]
  by_cases hb : req.body.isEmpty <;>
    simp [serializeRequest, requestHead, joinCRLF, requestLines, headerLineCRLF,
      headerLineOf, statusLineOf, hostLineOf, clLineOf, hb, hsplit, hline,
      foldl_append_flatten, List.append_assoc]

/-! ## Concrete inputs used by individual claims -/

/-- A request with two same-named headers holding plain values. -/
def c1req : Request :=
  ⟨strB ("GET"), [(strB ("x-test"), strB ("abc")), (strB ("x-test"), strB ("def"))], []⟩

def c1url : Url := ⟨strB ("/p"), some (strB ("h"))⟩

/-- A response declaring `Content-Length: 2` while 4 body bytes are already
buffered behind the header terminator. -/
def c2stream : List (List Nat) :=
  [strB ("HTTP/1.1 200 OK\r\nContent-Length: 2\r\n\r\nhell")]

/-- A response declaring `Content-Length: 5` whose stream closes after only
3 body bytes. -/
def c4stream : List (List Nat) :=
  [strB ("HTTP/1.1 200 OK\r\nContent-Length: 5\r\n\r\nhel")]

/-- A header block with the same header name on two lines. -/
def c5stream : List (List Nat) :=
  [strB ("HTTP/1.1 200 OK\r\nX: a\r\nX: b\r\n\r\n")]

/-- The response of claim C7, delivered as a single chunk. -/
def c7stream : List (List Nat) :=
  [strB ("HTTP/1.1 200 OK\r\nContent-Length: 5\r\n\r\nhello")]

/-- A header block containing a non-empty line with no `": "` separator. -/
def c9stream : List (List Nat) :=
  [strB ("HTTP/1.1 200 OK\r\nBadLine\r\nX: y\r\n\r\n")]

/-! ## Claims -/

/-- Claim C1: the spec says each caller-supplied header is serialized as the
line `name`, `": "`, the raw value bytes, CRLF, order and duplicates
preserved.  The code violates the raw-bytes part: line 72 of src/client.rs
formats the value with `{:?}` (Debug), so the wire carries the value wrapped
in double quotes.  For two caller headers `x-test: abc`, `x-test: def` the
wire holds `x-test: "abc"` and `x-test: "def"` (order and duplicates are
preserved), and the line `x-test: abc` required by the claim appears
nowhere in the serialized bytes. -/
theorem C1_debug_quoting :
    serializeRequest c1req c1url
        = strB ("GET /p HTTP/1.1\r\nHost: h\r\nx-test: \"abc\"\r\nx-test: \"def\"\r\n\r\n")
      ∧ containsSeq (strB ("x-test: abc")) (serializeRequest c1req c1url) = false :=
  ⟨rfl, rfl⟩

/-- Claim C2: the spec requires that buffered body bytes in excess of the
declared `Content-Length` be treated as the next message and reported as an
explicit inconsistency, with no underflowing subtraction.  The code instead
computes `content_length - body.len()` unchecked (line 145); on a response
declaring length 2 with 4 bytes buffered this subtraction underflows
(`bodyLenUnderflow` embeds the debug-build panic / release-build
wraparound). -/
theorem C2_underflow :
    readResponse c2stream = .error .bodyLenUnderflow := rfl

/-- Claim C4: the spec requires a `TruncatedBody` error when the stream
closes before `Content-Length` bytes arrive.  The code instead breaks out of
the body loop on a zero-byte read (line 150) and returns a successful
`Response`: with `Content-Length: 5` and the stream closing after `hel`, it
returns `Ok` with the 3-byte body. -/
theorem C4_truncated_ok :
    readResponse c4stream
      = .ok ⟨200, 200, [], [(strB ("content-length"), strB ("5"))], strB ("hel")⟩ := rfl

/-- Claim C5: the spec requires duplicate header names to be preserved as
separate entries of an ordered multi-map.  The code inserts every parsed
pair with `HeaderMap::insert` (line 132), which replaces the previous value:
parsing `X: a` followed by `X: b` yields a single entry `x ↦ b`. -/
theorem C5_duplicates_collapsed :
    readResponse c5stream
      = .ok ⟨200, 200, [], [(strB ("x"), strB ("b"))], []⟩ := rfl

/-- Claim C7: parsing `HTTP/1.1 200 OK\r\nContent-Length: 5\r\n\r\nhello`
is claimed to yield status 200, reason `"OK"`, body `hello`.  Status code
and body are as claimed, but the code discards the parsed reason phrase
(the `_reason_phrase` binding, line 122) and builds the `Response` with
`reason_phrase: "".to_string()` (line 162), so the reason phrase is empty,
not `"OK"`. -/
theorem C7_reason_discarded :
    readResponse c7stream
      = .ok ⟨200, 200, [], [(strB ("content-length"), strB ("5"))], strB ("hello")⟩ := rfl

/-- Claim C9: the spec requires a `MalformedHeaderLine` error for a
non-empty header line with no `": "` separator.  The
`if let Some((key, value)) = line.split_once(": ")` (line 129) has no else
branch: the line `BadLine` is silently skipped and parsing succeeds. -/
theorem C9_malformed_line_skipped :
    readResponse c9stream
      = .ok ⟨200, 200, [], [(strB ("x"), strB ("y"))], []⟩ := rfl

/-- Claim C10: if the stream closes before `\r\n\r\n` ever appears in the
accumulated buffer, `read_response` fails with the `"Invalid response"`
error (line 110) — no `Response` is produced from a buffer lacking the
header terminator. -/
theorem C10_no_terminator_error (stream : List (List Nat))
    (h : findCRLFCRLF (headerPhase stream).1 = none) :
    readResponse stream = .error .invalidResponse := by
  simp [readResponse, parseBuffer, h]

/-- Witness for C10 at a stream that closes mid status line. -/
theorem C10_no_terminator_error_witness :
    readResponse [strB ("HTTP/1.1 200")] = .error .invalidResponse :=
  C10_no_terminator_error [strB ("HTTP/1.1 200")] (by decide)

/-! ## Claim C3: unbounded header accumulation -/

/-- A buffer that contains no CR byte cannot contain the terminator. -/
theorem findCRLFCRLF_eq_none_of_no13 : ∀ l : List Nat, 13 ∉ l → findCRLFCRLF l = none := by
  intro l
  induction l with
  | nil => intro _; rfl
  | cons b rest ih =>
    intro h
    have hb : b ≠ 13 := fun hb => h (hb ▸ List.mem_cons_self b rest)
    have hrest : 13 ∉ rest := fun hm => h (List.mem_cons_of_mem b hm)
    have hado : strB ("\r\n\r\n") = 13 :: strB ("\n\r\n") := rfl
    have hsw : startsWith (strB ("\r\n\r\n")) (b :: rest) = false := by
      rw [hado]
      exact startsWith_cons_false _ _ _ _ (Ne.symm hb)
    simp [findCRLFCRLF, hsw, ih hrest]

/-- The accumulation loop on a stream of `n` one-byte chunks `[97]` never
finds a terminator and therefore buffers the entire stream: the buffer grows
linearly in the input with no bound. -/
theorem accumHeaders_replicate :
    ∀ (n fuel : Nat) (buf : List Nat), n < fuel → 13 ∉ buf →
      accumHeaders fuel buf (List.replicate n [97])
        = (buf ++ List.replicate n 97, []) := by
  intro n
  induction n with
  | zero =>
    intro fuel buf hf _
    cases fuel with
    | zero => omega
    | succ f => simp [accumHeaders, readChunk]
  | succ n ih =>
    intro fuel buf hf hb
    cases fuel with
    | zero => omega
    | succ f =>
      have hread : readChunk 8192 (([97] : List Nat) :: List.replicate n [97])
          = ([97], List.replicate n [97]) := rfl
      have hbuf2 : 13 ∉ buf ++ [97] := by
        intro hm
        rcases List.mem_append.mp hm with h1 | h2
        · exact hb h1
        · simp at h2
      have hfind : findCRLFCRLF (buf ++ [97]) = none :=
        findCRLFCRLF_eq_none_of_no13 _ hbuf2
      have hstep := ih f (buf ++ [97]) (by omega) hbuf2
      rw [List.replicate_succ]
      simp [accumHeaders, hread, hfind, hstep, List.replicate_succ,
        List.append_assoc]

/-- Claim C3: the spec requires a maximum header-block size, exceeding which
fails with `HeadersTooLarge`.  The code has no limit at all: on a stream of
`n` junk bytes with no terminator — for every `n`, however large — the loop
of lines 98-107 buffers all `n` bytes (the 8192 in the code is only the size
of the per-read scratch buffer), and the eventual failure at end of stream
is the generic `"Invalid response"`; no header-size error exists anywhere in
`read_response`. -/
theorem C3_unbounded_accumulation :
    ∀ n : Nat,
      (headerPhase (List.replicate n [97])).1 = List.replicate n 97
      ∧ readResponse (List.replicate n [97]) = .error .invalidResponse := by
  intro n
  have hsb : streamBytes (List.replicate n [97]) = n := by
    simp [streamBytes]
  have hacc : headerPhase (List.replicate n [97]) = (List.replicate n 97, []) := by
    rw [headerPhase, hsb]
    simpa using accumHeaders_replicate n (n + 1) [] (by omega) (by simp)
  have hfind : findCRLFCRLF (headerPhase (List.replicate n [97])).1 = none := by
    rw [hacc]
    exact findCRLFCRLF_eq_none_of_no13 _ (by
      intro hm
      have := (List.mem_replicate.mp hm).2
      omega)
  refine ⟨by rw [hacc], ?_⟩
  simp [readResponse, parseBuffer, hfind]

/-! ## Claim C6: header values with raw CR/LF -/

/-- Every byte `hexDigitsAux` emits is a hex digit character. -/
theorem hexDigitsAux_mem :
    ∀ (fuel n b : Nat), b ∈ hexDigitsAux fuel n →
      (48 ≤ b ∧ b ≤ 57) ∨ (97 ≤ b ∧ b ≤ 102) := by
  intro fuel
  induction fuel with
  | zero => intro n b hb; simp [hexDigitsAux] at hb
  | succ f ih =>
    intro n b hb
    by_cases hn : n = 0
    · simp [hexDigitsAux, hn] at hb
    · rw [hexDigitsAux] at hb
      rw [if_neg hn] at hb
      rcases List.mem_append.mp hb with h1 | h2
      · exact ih _ _ h1
      · have : b = hexDigitChar (n % 16) := by simpa using h2
        have hlt : n % 16 < 16 := Nat.mod_lt _ (by omega)
        rw [this, hexDigitChar]
        split <;> omega

/-- Every byte `hexDigits` emits is a hex digit character. -/
theorem hexDigits_mem (n b : Nat) (hb : b ∈ hexDigits n) :
    (48 ≤ b ∧ b ≤ 57) ∨ (97 ≤ b ∧ b ≤ 102) := by
  rw [hexDigits] at hb
  by_cases hn : n = 0
  · rw [if_pos hn] at hb; simp at hb; omega
  · rw [if_neg hn] at hb; exact hexDigitsAux_mem _ _ _ hb

/-- No byte of the escaped rendering of any value byte is CR or LF. -/
theorem escByte_no_crlf (b c : Nat) (hc : c ∈ escByte b) : c ≠ 13 ∧ c ≠ 10 := by
  rw [escByte] at hc
  by_cases h34 : b = 34
  · rw [if_pos h34] at hc
    simp at hc
    omega
  · rw [if_neg h34] at hc
    by_cases hvis : isVisibleAscii b = true
    · rw [if_pos hvis] at hc
      simp at hc
      subst hc
      simp [isVisibleAscii] at hvis
      omega
    · rw [if_neg hvis] at hc
      simp at hc
      rcases hc with h | h | h
      · omega
      · omega
      · have := hexDigits_mem _ _ h
        omega

/-- Claim C6 (amended): the serializer never rejects a request — it has no
validation and no `EncodingError` — but the `{:?}` rendering of a header
value escapes every byte outside visible ASCII, so no raw CR or LF byte of
a header value reaches the wire verbatim: the rendered value
`headerValueDebug v`, which is exactly what `serializeRequest` emits between
`": "` and the terminating CRLF of the line, contains neither byte 13 nor byte 10, for every
value `v`.  (Independently, `http::HeaderValue` rejects CR/LF at
construction, so such a request cannot even be built against the real
types.) -/
theorem C6_escaped_never_raw (v : List Nat) :
    13 ∉ headerValueDebug v ∧ 10 ∉ headerValueDebug v := by
  constructor <;>
  · intro hm
    rw [headerValueDebug] at hm
    rcases List.mem_cons.mp hm with h | h
    · omega
    · rcases List.mem_append.mp h with h | h
      · rcases List.mem_flatten.mp h with ⟨l, hl, hbl⟩
        rcases List.mem_map.mp hl with ⟨x, _, hx⟩
        have := escByte_no_crlf x _ (hx ▸ hbl)
        omega
      · exact absurd h (by decide)

/-- The request of claim C6: a header value holding a raw CR and a raw LF. -/
def c6req : Request := ⟨strB ("GET"), [(strB ("x-test"), [97, 13, 10, 98])], []⟩

def c6url : Url := ⟨strB ("/"), some (strB ("h"))⟩

/-- Claim C6, as stated, is false on the code: serializing a request whose
header value contains raw CR and LF bytes does not reject with an
`EncodingError` (no such rejection exists in `send_request`); it completes
and produces wire bytes, with the offending bytes rendered as the Debug
escapes `\xd` and `\xa`. -/
theorem C6_no_rejection :
    serializeRequest c6req c6url
      = strB ("GET / HTTP/1.1\r\nHost: h\r\nx-test: \"a\\xd\\xab\"\r\n\r\n") := rfl

/-! ## Claim C8: Content-Length presence on the wire -/

theorem startsWith_self_append : ∀ (p B : List Nat), startsWith p (p ++ B) = true := by
  intro p
  induction p with
  | nil => intro B; rfl
  | cons a p ih => intro B; simp [startsWith, ih]

theorem containsSeq_nil_pat : ∀ l : List Nat, containsSeq [] l = true := by
  intro l
  cases l <;> simp [containsSeq, startsWith]

theorem containsSeq_of_append : ∀ (A pat B : List Nat),
    containsSeq pat (A ++ pat ++ B) = true := by
  intro A
  induction A with
  | nil =>
    intro pat B
    cases pat with
    | nil => simpa using containsSeq_nil_pat B
    | cons a p => simp [containsSeq, startsWith, startsWith_self_append]
  | cons a A' ih =>
    intro pat B
    have h := ih pat B
    rw [List.append_assoc] at h
    simp [containsSeq, h]

/-- A pattern that contains a colon but no space never prefixes
`m ++ 32 :: rest` when every byte of `m` is a token byte (token bytes
exclude both the colon and the space). -/
theorem startsWith_token_space :
    ∀ (m : List Nat), (∀ b ∈ m, isTokenByte b = true) →
      ∀ (pat : List Nat), (∀ b ∈ pat, b ≠ 32) → 58 ∈ pat →
        ∀ rest : List Nat, startsWith pat (m ++ 32 :: rest) = false := by
  intro m
  induction m with
  | nil =>
    intro _ pat hns hc rest
    cases pat with
    | nil => exact absurd hc (by simp)
    | cons q ps =>
      have hq : q ≠ 32 := hns q (List.mem_cons_self q ps)
      simpa using startsWith_cons_false q 32 ps rest hq
  | cons b m' ih =>
    intro hm pat hns hc rest
    cases pat with
    | nil => exact absurd hc (by simp)
    | cons q ps =>
      by_cases hqb : q = b
      · subst hqb
        have hq : isTokenByte q = true := hm q (List.mem_cons_self q m')
        have hq58 : q ≠ 58 := by
          intro h58
          rw [h58] at hq
          exact absurd hq (by decide)
        have hc' : 58 ∈ ps := by
          rcases List.mem_cons.mp hc with h | h
          · exact absurd h.symm hq58
          · exact h
        have hns' : ∀ x ∈ ps, x ≠ 32 := fun x hx => hns x (List.mem_cons_of_mem q hx)
        have hm' : ∀ x ∈ m', isTokenByte x = true :=
          fun x hx => hm x (List.mem_cons_of_mem _ hx)
        have hrec := ih hm' ps hns' hc' rest
        simp [startsWith, hrec]
      · have hsplitl : ((b :: m') ++ 32 :: rest) = b :: (m' ++ 32 :: rest) := rfl
        rw [hsplitl]
        exact startsWith_cons_false q b ps _ hqb

/-- Claim C8 (amended): the serializer itself appends the exact line
`Content-Length: <n>` if and only if the request body is non-empty, with
`n` the byte length of the body.  For a non-empty body that line, followed by its
CRLF and the blank line, appears verbatim in the wire bytes; for an empty
body no line of the request head begins with `Content-Length:`.  (The
original iff over the whole wire fails only because caller-supplied headers
are emitted as-is, so a caller can place a lowercase `content-length`
header of its own on the wire regardless of the body — see the
counterexample.)  Hypotheses: method bytes are RFC 7230 token bytes
(guaranteed by `http::Method`) and stored header names are lowercase
`HeaderName` bytes (guaranteed by `http::HeaderMap`). -/
theorem C8_content_length_iff (req : Request) (url : Url)
    (hm : ∀ b ∈ req.method, isTokenByte b = true)
    (hn : ∀ p ∈ req.headers, storedHeaderName p.1) :
    (req.body = [] →
      ∀ l ∈ requestLines req url, startsWith (strB ("Content-Length:")) l = false)
    ∧ (req.body ≠ [] →
        clLineOf req ∈ requestLines req url
        ∧ clLineOf req = strB ("Content-Length: ") ++ natDigits req.body.length
        ∧ containsSeq (clLineOf req ++ strB ("\r\n\r\n")) (serializeRequest req url)
            = true) := by
  have hCL : strB ("Content-Length:") = 67 :: strB ("ontent-Length:") := rfl
  constructor
  · intro hbody l hl
    have hbe : req.body.isEmpty = true := by rw [hbody]; rfl
    simp [requestLines, hbe] at hl
    rcases hl with h | h | h
    · subst h
      have hs : statusLineOf req url
          = req.method ++ (32 :: (url.path ++ strB (" HTTP/1.1"))) := by
        simp [statusLineOf, List.append_assoc, strB]
      rw [hs]
      exact startsWith_token_space req.method hm _ (by decide) (by decide) _
    · subst h
      have hh : hostLineOf url = 72 :: (strB ("ost: ") ++ url.host.getD []) := rfl
      rw [hh, hCL]
      exact startsWith_cons_false _ _ _ _ (by decide)
    · rcases h with ⟨p1, p2, hp, rfl⟩
      cases hp1 : p1 with
      | nil =>
        have hline : headerLineOf ([], p2) = 58 :: (32 :: headerValueDebug p2) := by
          simp [headerLineOf, strB]
        rw [hline, hCL]
        exact startsWith_cons_false _ _ _ _ (by decide)
      | cons n0 nt =>
        have hfix : headerNameByte n0 = some n0 :=
          hn (p1, p2) hp n0 (by rw [hp1]; exact List.mem_cons_self _ _)
        have h67 : n0 ≠ 67 := by
          intro hx
          rw [hx] at hfix
          exact absurd hfix (by decide)
        have hline : headerLineOf (n0 :: nt, p2)
            = n0 :: (nt ++ (strB (": ") ++ headerValueDebug p2)) := by
          simp [headerLineOf, List.append_assoc]
        rw [hline, hCL]
        exact startsWith_cons_false _ _ _ _ (Ne.symm h67)
  · intro hbody
    have hbe : req.body.isEmpty = false := by
      cases hb2 : req.body with
      | nil => exact absurd hb2 hbody
      | cons a t => rfl
    refine ⟨by simp [requestLines, hbe], rfl, ?_⟩
    have hc2 : strB ("\r\n\r\n") = strB ("\r\n") ++ strB ("\r\n") := rfl
    have hshape : serializeRequest req url
        = joinCRLF (statusLineOf req url :: hostLineOf url ::
              req.headers.map headerLineOf)
          ++ (clLineOf req ++ strB ("\r\n\r\n")) ++ req.body := by
      rw [serialize_structure req url]
      simp [requestLines, hbe, joinCRLF, hc2, List.append_assoc]
    rw [hshape]
    exact containsSeq_of_append _ _ _

/-- Witness request for C8: `POST` with one header and body `abc`. -/
def c8wreq : Request := ⟨strB ("POST"), [(strB ("x-a"), strB ("v"))], strB ("abc")⟩

def c8wurl : Url := ⟨strB ("/p"), some (strB ("h"))⟩

/-- Witness for C8 at a concrete request with a non-empty body. -/
theorem C8_content_length_iff_witness :
    (c8wreq.body = [] →
      ∀ l ∈ requestLines c8wreq c8wurl,
        startsWith (strB ("Content-Length:")) l = false)
    ∧ (c8wreq.body ≠ [] →
        clLineOf c8wreq ∈ requestLines c8wreq c8wurl
        ∧ clLineOf c8wreq = strB ("Content-Length: ") ++ natDigits c8wreq.body.length
        ∧ containsSeq (clLineOf c8wreq ++ strB ("\r\n\r\n"))
            (serializeRequest c8wreq c8wurl) = true) :=
  C8_content_length_iff c8wreq c8wurl (by decide) (by decide)

/-- The counterexample request of C8: an empty body together with a
caller-supplied `content-length` header. -/
def c8req : Request := ⟨strB ("GET"), [(strB ("content-length"), strB ("5"))], []⟩

def c8url : Url := ⟨strB ("/"), some (strB ("h"))⟩

/-- Claim C8, as stated, is false on the code: for a request with an empty
body but a caller-supplied `content-length` header, the serialized wire
bytes do contain a Content-Length header line (header names are
case-insensitive in HTTP, and `HeaderMap` stores them lowercased), because
`send_request` emits caller headers unconditionally. -/
theorem C8_caller_content_length :
    c8req.body = []
    ∧ containsSeq (strB ("\r\ncontent-length: ")) (serializeRequest c8req c8url)
        = true :=
  ⟨rfl, rfl⟩

end Kusari
